import Mathlib

/-!
Verification of the district-name entity-resolution engine of the
territory-plan repository.

The embedding below follows scripts/match_rev_incept.py (the resolver and
its per-row pipeline body in main()) and scripts/build_corrected_rev_incept.py
(the manual-override layer).  Strings are modelled as List Char; Python string
primitives (.lower/.strip/.replace, the specific re.sub patterns used by the
scripts, str.split, the in operator) are given faithful executable models.
Whitespace and case handling is modelled at ASCII level, which is exact for
every comparison the scripts perform after their initial lowercasing.
Python float scores are modelled as exact rationals: every score produced by
the scripts (1.0, 0.99, 0.98, 0.90, and token ratios k/n with small n) is
compared only against 0.5, 0.6 and 0.9, where exact rational comparison
coincides with binary64 comparison.
-/

set_option maxRecDepth 40000

namespace TerritoryPlan

/-- ASCII whitespace test, the characters matched by Python's str.strip and
the regex class used on these ASCII inputs. -/
def isSpaceChar (c : Char) : Bool :=
  c.toNat = 32 || c.toNat = 9 || c.toNat = 10 || c.toNat = 13 || c.toNat = 11 || c.toNat = 12

/-- Lowercase ASCII letter test (the regex class of letters kept by normalize). -/
def isLowerAZ (c : Char) : Bool :=
  97 ≤ c.toNat && c.toNat ≤ 122

/-- ASCII digit test (the regex class d). -/
def isDigitChar (c : Char) : Bool :=
  48 ≤ c.toNat && c.toNat ≤ 57

/-- ASCII lowercasing of one character, as str.lower acts on ASCII. -/
def lowerChar (c : Char) : Char :=
  if 65 ≤ c.toNat ∧ c.toNat ≤ 90 then Char.ofNat (c.toNat + 32) else c

/-- ASCII uppercasing of one character, as str.upper acts on ASCII. -/
def upperChar (c : Char) : Char :=
  if 97 ≤ c.toNat ∧ c.toNat ≤ 122 then Char.ofNat (c.toNat - 32) else c

/-- Lowercase an entire character list (str.lower). -/
def listLower (s : List Char) : List Char := s.map lowerChar

/-- str.strip: drop leading and trailing whitespace. -/
def stripChars (s : List Char) : List Char :=
  ((s.dropWhile isSpaceChar).reverse.dropWhile isSpaceChar).reverse

/-- Python substring containment (the in operator on str): does p occur
contiguously in s? -/
def occursIn (p : List Char) : List Char → Bool
  | [] => p.isEmpty
  | c :: s => p.isPrefixOf (c :: s) || occursIn p s

/-- One left-to-right pass of str.replace(p, r): each non-overlapping
occurrence of p is replaced by r, scanning resumes after the occurrence and
never rescans the inserted replacement.  Fuelled structurally; fuel equal to
the subject length is always sufficient since each step consumes at least one
subject character. -/
def replaceAllGo (p r : List Char) : Nat → List Char → List Char
  | _, [] => []
  | 0, s => s
  | n + 1, c :: s =>
    if p.isPrefixOf (c :: s) && !p.isEmpty then
      r ++ replaceAllGo p r n (s.drop (p.length - 1))
    else
      c :: replaceAllGo p r n s

/-- str.replace(p, r) on character lists. -/
def replaceAll (p r s : List Char) : List Char := replaceAllGo p r s.length s

/-- Match of the anchored-at-current-position part of the regex
s*((dupe|district))s* used by normalize: greedy whitespace, a literal
parenthesised dupe or district tag, greedy trailing whitespace.  Returns the
rest of the input after the match. -/
def matchParenTag (s : List Char) : Option (List Char) :=
  let t := s.dropWhile isSpaceChar
  if ("(dupe)".toList).isPrefixOf t then some ((t.drop 6).dropWhile isSpaceChar)
  else if ("(district)".toList).isPrefixOf t then some ((t.drop 10).dropWhile isSpaceChar)
  else none

/-- re.sub of the dupe/district tag pattern with a single space, scanning
left to right exactly as re.sub does (replacement not rescanned). -/
def subParenTagGo : Nat → List Char → List Char
  | _, [] => []
  | 0, s => s
  | n + 1, c :: s =>
    match matchParenTag (c :: s) with
    | some rest => ' ' :: subParenTagGo n rest
    | none => c :: subParenTagGo n s

/-- re.sub(pattern of dupe/district tags, one space, s). -/
def subParenTag (s : List Char) : List Char := subParenTagGo s.length s

/-- Match of the anchored-at-current-position part of the general
parenthetical regex: greedy whitespace, an opening parenthesis, a maximal run
of non-closing characters, a closing parenthesis.  Returns the rest after the
match. -/
def matchParen (s : List Char) : Option (List Char) :=
  let t := s.dropWhile isSpaceChar
  if t.head? = some '(' then
    match (t.drop 1).dropWhile (fun c => !(c = ')' : Bool)) with
    | ')' :: w => some w
    | _ => none
  else none

/-- re.sub of the general parenthetical pattern with the empty string. -/
def subParenGo : Nat → List Char → List Char
  | _, [] => []
  | 0, s => s
  | n + 1, c :: s =>
    match matchParen (c :: s) with
    | some rest => subParenGo n rest
    | none => c :: subParenGo n s

/-- re.sub(parenthetical pattern, empty, s). -/
def subParen (s : List Char) : List Char := subParenGo s.length s

/-- Helper for the numeric-tail regex: optional literal hash. -/
def dropHash (s : List Char) : List Char :=
  if s.head? = some '#' then s.drop 1 else s

/-- Helper for the numeric-tail regex: optional literal dot. -/
def dropDot (s : List Char) : List Char :=
  if s.head? = some '.' then s.drop 1 else s

/-- Helper for the numeric-tail regex: optional literal dash. -/
def dropDash (s : List Char) : List Char :=
  if s.head? = some '-' then s.drop 1 else s

/-- Helper for the numeric-tail regex: the optional no-dot-space group. -/
def dropNoTag (s : List Char) : List Char :=
  if ("no".toList).isPrefixOf s then (dropDot (s.drop 2)).dropWhile isSpaceChar else s

/-- Helper for the numeric-tail regex: the optional re-dash group. -/
def dropReTag (s : List Char) : List Char :=
  if ("re".toList).isPrefixOf s then dropDash (s.drop 2) else s

/-- Full match of d+[a-z]?s*$ starting at the given position: at least one
digit, an optional lowercase letter, trailing whitespace, then end. -/
def numTailCore (s : List Char) : Bool :=
  if (s.takeWhile isDigitChar).isEmpty then false
  else
    let s2 := s.dropWhile isDigitChar
    let s3 := match s2 with
      | c :: t => if isLowerAZ c then t else c :: t
      | [] => []
    (s3.dropWhile isSpaceChar).isEmpty

/-- Full end-anchored match of the first district-number pattern of
normalize, with its optional hash, no and re prefixes. -/
def isNumTail1 (s : List Char) : Bool :=
  numTailCore (dropReTag (dropNoTag ((dropHash (s.dropWhile isSpaceChar)).dropWhile isSpaceChar)))

/-- Full end-anchored match of the second district-number pattern
of normalize. -/
def isNumTail2 (s : List Char) : Bool :=
  numTailCore (s.dropWhile isSpaceChar)

/-- re.sub of an end-anchored pattern: the leftmost (hence longest) suffix
fully matching the pattern is removed; if no suffix matches, the string is
unchanged. -/
def stripTail (m : List Char → Bool) : List Char → List Char
  | [] => []
  | c :: t => if m (c :: t) then [] else c :: stripTail m t

/-- re.sub(whitespace-run pattern, one space, s): every maximal whitespace
run collapses to a single space character. -/
def collapseWs : List Char → List Char
  | [] => []
  | [c] => if isSpaceChar c then [' '] else [c]
  | c :: d :: t =>
    if isSpaceChar c && isSpaceChar d then collapseWs (d :: t)
    else (if isSpaceChar c then ' ' else c) :: collapseWs (d :: t)

/-- The shared tail of normalize: strip every character that is not a
lowercase letter or whitespace, collapse whitespace runs, strip the ends. -/
def finalScrub (s : List Char) : List Char :=
  stripChars (collapseWs (s.filter (fun c => isLowerAZ c || isSpaceChar c)))

/-- The fixed vocabulary of organisational-type suffix phrases removed by
normalize, in the exact order of the source list in match_rev_incept.py. -/
def suffixWords : List (List Char) :=
  ["school district", "public schools", "public school district",
   "community school district", "community unit school district",
   "unified school district", "independent school district",
   "central school district", "city school district",
   "community schools", "county schools", "county school district",
   "county school system", "city schools", "school corporation",
   "community consolidated school district",
   "consolidated school district",
   "exempted village school district",
   "township school district", "borough school district",
   "regional school district", "parish school board",
   "area schools", "area school district",
   "charter school", "charter schools", "charter academy",
   "charter", "academy", "school", "schools",
   "unified district", "elementary district",
   "high school district", "union school district",
   "reorganized school district", "school system",
   "supervisory union", "municipal schools",
   "public school", "school board",
   "elementary school district",
   "union free school district", "free school district",
   "enlarged school district",
   "county office of education",
   "county superintendent of schools",
   "office of education",
   "boces", "pcs",
   "district"].map String.toList

/-- Sequential removal of the suffix vocabulary, one str.replace per phrase,
in list order, exactly as the for-loop of normalize. -/
def removeSuffixWords (s : List Char) : List Char :=
  suffixWords.foldl (fun t w => replaceAll w [] t) s

/-- normalize from match_rev_incept.py: lowercase and strip, drop dupe and
district tags then all parentheticals, expand the isd, cusd and usd
abbreviations, remove the suffix vocabulary, strip trailing district
numbers, keep only lowercase letters and whitespace, collapse whitespace,
strip. -/
def normalize (name : List Char) : List Char :=
  if name.isEmpty then [] else
  finalScrub
    (stripTail isNumTail2
      (stripTail isNumTail1
        (removeSuffixWords
          (replaceAll (" usd".toList) (" unified school district".toList)
            (replaceAll (" cusd".toList) (" community unit school district".toList)
              (replaceAll (" isd".toList) (" independent school district".toList)
                (subParen
                  (subParenTag
                    (stripChars (listLower name))))))))))

/-- str.split() on whitespace with an accumulator, dropping empty tokens. -/
def wordsAux : List Char → List Char → List (List Char)
  | [], acc => if acc.isEmpty then [] else [acc.reverse]
  | c :: s, acc =>
    if isSpaceChar c then
      (if acc.isEmpty then wordsAux s [] else acc.reverse :: wordsAux s [])
    else wordsAux s (c :: acc)

/-- str.split(): the whitespace-separated tokens of a string. -/
def wordsOf (s : List Char) : List (List Char) := wordsAux s []

/-- word_overlap_score from match_rev_incept.py: the number of distinct
shared tokens divided by the number of distinct input tokens, with the
guard clauses of the source. -/
def word_overlap_score (a b : List Char) : ℚ :=
  if a.isEmpty || b.isEmpty then 0
  else
    let wa := (wordsOf a).dedup
    let wb := wordsOf b
    if wa.isEmpty || wb.isEmpty then 0
    else mkRat ((wa.filter (fun w => wb.contains w)).length : Int) (max wa.length 1)

/-- str.strip on a String value. -/
def stripS (s : String) : String := String.mk (stripChars s.toList)

/-- str.lower on a String value (ASCII). -/
def lowerS (s : String) : String := String.mk (listLower s.toList)

/-- str.upper on a String value (ASCII). -/
def upperS (s : String) : String := String.mk (s.toList.map upperChar)

/-- s.lower().strip() as used for the EXACT_ACCOUNT comparison. -/
def lowStripS (s : String) : String := stripS (lowerS s)

/-- One row of the districts registry snapshot, as selected by
match_rev_incept.py (leaid, name, state_abbrev, account_name, in the
ORDER BY leaid order).  A NULL state or account is modelled as the empty
string, matching the falsiness tests of the source. -/
structure District where
  leaid : String
  name : String
  st : String
  acct : String
deriving DecidableEq

/-- One row of the input CSV, with the fields the pipeline reads. -/
structure InputRow where
  name : String
  state : String
  lms : String
  nces : String
deriving DecidableEq

/-- One scored candidate: (score, leaid, db_name, match type), exactly the
tuples appended to the scored list. -/
structure ScoredEntry where
  score : ℚ
  leaid : String
  dbName : String
  method : String
deriving DecidableEq

/-- One output row of the matcher.  The first eight fields are the CSV
columns written by the source.  The Notes column of the source mixes a
fixed literal note, a formatted list of alternates and an optional
searched-all-states marker; these three ingredients are kept structurally
here (alts, scopeAll, note) since only their content, not the percent
formatting, is specified. -/
structure OutputRow where
  name : String
  state : String
  lms : String
  ncesGiven : String
  matchedLeaid : String
  matchedName : String
  matchType : String
  confidence : String
  alts : List ScoredEntry
  scopeAll : Bool
  note : String
deriving DecidableEq

/-- Normalized primary name of a registry row. -/
def normNameOf (d : District) : List Char := normalize d.name.toList

/-- Normalized account name of a registry row; the source computes
normalize(acct) if acct else the empty string. -/
def normAcctOf (d : District) : List Char :=
  if d.acct = "" then [] else normalize d.acct.toList

/-- The jurisdiction bucket for an upper-cased state code: every registry
row with a non-empty state whose upper-casing equals the code, in snapshot
order (the by_state dict of the source). -/
def stateBucket (reg : List District) (st : String) : List District :=
  reg.filter (fun d => !(d.st = "" : Bool) && (upperS d.st = st : Bool))

/-- The non-K12 keyword list of match_rev_incept.py. -/
def nonK12Keywords : List (List Char) :=
  ["university", "college", "upward bound", "gear up", "diocese",
   "metropolitan state", "state university", "community college",
   "technical college", "institute of technology",
   "d2c", "events & engagement", "events and engagement",
   "department of corrections", "board of education",
   "lulac national", "united friends", "parris foundation",
   "opportunity resource", "project stay", "learn inc",
   "catherine carlton", "methodist home"].map String.toList

/-- is_non_k12 from match_rev_incept.py: keyword containment in the
lowercased name. -/
def is_non_k12 (s : String) : Bool :=
  nonK12Keywords.any (fun kw => occursIn kw (listLower s.toList))

/-- The sentinel placeholder names skipped outright by the pipeline. -/
def sentinelNames : List String :=
  ["D2C", "Events & Engagement Revenue", "Events and Engagement", "Events & Engagement"]

/-- End-anchored match of the dupe-tag pattern with the ignore-case flag:
whitespace, a parenthesised dupe (in any case), trailing whitespace, end. -/
def isDupeTail (s : List Char) : Bool :=
  ("(dupe)".toList).isPrefixOf ((listLower s).dropWhile isSpaceChar)
    && ((((listLower s).dropWhile isSpaceChar).drop 6).dropWhile isSpaceChar).isEmpty

/-- clean_name of the pipeline: the trailing dupe tag removed from the
already-stripped name, then stripped again. -/
def cleanNameOf (name : String) : String :=
  stripS (String.mk (stripTail isDupeTail name.toList))

/-- Per-candidate scoring, the body of the scoring loop of main(): the
ordered exact, account, normalized-account and substring rules each emit one
entry and stop; otherwise the word-overlap rule against the primary name and
the account name each emit an entry when their own score reaches one half. -/
def entriesFor (clean : String) (ni : List Char) (d : District) : List ScoredEntry :=
  if ni ≠ [] ∧ ni = normNameOf d then
    [⟨mkRat 1 1, d.leaid, d.name, "EXACT_NORM"⟩]
  else if d.acct ≠ "" ∧ lowStripS clean = lowStripS d.acct then
    [⟨mkRat 99 100, d.leaid, d.name, "EXACT_ACCOUNT"⟩]
  else if normAcctOf d ≠ [] ∧ ni ≠ [] ∧ ni = normAcctOf d then
    [⟨mkRat 98 100, d.leaid, d.name, "EXACT_NORM_ACCOUNT"⟩]
  else if ni ≠ [] ∧ normNameOf d ≠ [] ∧
      (occursIn ni (normNameOf d) || occursIn (normNameOf d) ni) = true then
    [⟨mkRat 90 100, d.leaid, d.name, "SUBSTRING"⟩]
  else
    (if mkRat 1 2 ≤ word_overlap_score ni (normNameOf d) then
      [⟨word_overlap_score ni (normNameOf d), d.leaid, d.name, "WORD_OVERLAP"⟩]
    else []) ++
    (if normAcctOf d ≠ [] ∧ mkRat 1 2 ≤ word_overlap_score ni (normAcctOf d) then
      [⟨word_overlap_score ni (normAcctOf d), d.leaid, d.name, "ACCT_OVERLAP"⟩]
    else [])

/-- Stable descending insertion: the new entry goes after every entry whose
score is at least as large, matching the stable sort of the source. -/
def insertDesc (x : ScoredEntry) : List ScoredEntry → List ScoredEntry
  | [] => [x]
  | y :: ys => if y.score < x.score then x :: y :: ys else y :: insertDesc x ys

/-- scored.sort(key minus score): a stable sort, descending by score, ties
left in the order the entries were appended. -/
def sortDesc (l : List ScoredEntry) : List ScoredEntry :=
  l.foldl (fun acc x => insertDesc x acc) []

/-- The tail of the per-row pipeline: confidence tiering from the sorted
scored list and the search scope, exactly the final if-chain of main(). -/
def classify (name state lms : String) (scored : List ScoredEntry)
    (scopeAll : Bool) : OutputRow :=
  match scored with
  | [] => ⟨name, state, lms, "", "", "", "NO_MATCH", "NONE", [], scopeAll, ""⟩
  | top :: rest =>
    if mkRat 90 100 ≤ top.score then
      ⟨name, state, lms, "", top.leaid, top.dbName, top.method,
        if scopeAll then "MEDIUM" else "HIGH", rest.take 2, scopeAll, ""⟩
    else if mkRat 60 100 ≤ top.score then
      ⟨name, state, lms, "", top.leaid, top.dbName, top.method,
        if scopeAll then "LOW" else "MEDIUM", rest.take 2, scopeAll, ""⟩
    else
      ⟨name, state, lms, "", "", "", "LOW_CONFIDENCE", "LOW",
        (top :: rest).take 3, scopeAll, ""⟩

/-- The supplied-id lookup (SELECT by leaid, first matching snapshot row). -/
def verifiedLookup (reg : List District) (nces : String) : Option District :=
  reg.find? (fun d => d.leaid == nces)

/-- Score a candidate pool, sort, and classify. -/
def resolveRow (name state lms clean : String) (ni : List Char)
    (cands : List District) (scopeAll : Bool) : OutputRow :=
  classify name state lms (sortDesc (cands.flatMap (entriesFor clean ni))) scopeAll

/-- The per-row body of main() in match_rev_incept.py: strip the fields,
skip empty and sentinel names, remove the dupe tag, divert non-K12 and
international rows, verify a supplied NCES id, pick the search scope, score
and classify.  Returns none exactly when the source writes no output row. -/
def processRow (reg : List District) (r : InputRow) : Option OutputRow :=
  let name := stripS r.name
  let state := upperS (stripS r.state)
  let lms := stripS r.lms
  let nces := stripS r.nces
  if name = "" ∨ name ∈ sentinelNames then none else
  let clean := cleanNameOf name
  if is_non_k12 clean then
    some ⟨name, state, lms, nces, "", "", "NON_K12", "N/A", [], false,
      "University/college/non-K12 entity"⟩
  else if state = "INT" then
    some ⟨name, state, lms, nces, "", "", "INTERNATIONAL", "N/A", [], false,
      "International school - no NCES ID"⟩
  else
  let ni := normalize clean.toList
  if nces ≠ "" then
    match verifiedLookup reg nces with
    | some d => some ⟨name, state, lms, nces, d.leaid, d.name, "VERIFIED", "HIGH", [], false, ""⟩
    | none => some ⟨name, state, lms, nces, nces, "(NOT IN DB)", "GIVEN_NOT_FOUND", "LOW", [], false, ""⟩
  else
  if state ≠ "" ∧ stateBucket reg state ≠ [] then
    some (resolveRow name state lms clean ni (stateBucket reg state) false)
  else if state ≠ "" then
    some ⟨name, state, lms, "", "", "", "NO_STATE_DATA", "NONE", [], false,
      String.append "No districts for state " state⟩
  else
    some (resolveRow name state lms clean ni reg true)

/-- One input row of build_corrected_rev_incept.py (the matched-results CSV
with the resolver's five result columns). -/
structure CorrRow where
  name : String
  state : String
  lms : String
  nces : String
  mLeaid : String
  mName : String
  mType : String
  mConf : String
  mNotes : String
deriving DecidableEq

/-- One value of the manual corrections table: an optional leaid and
db name plus match type, confidence and notes. -/
structure Correction where
  leaid : Option String
  dbName : Option String
  mtype : String
  conf : String
  notes : String
deriving DecidableEq

/-- One output row of build_corrected_rev_incept.py. -/
structure CorrectedRow where
  name : String
  state : String
  lms : String
  nces : String
  mLeaid : String
  mName : String
  mType : String
  mConf : String
  mNotes : String
deriving DecidableEq

/-- The key constructor of the add() helper: name lowered and stripped,
state uppered and stripped. -/
def addKey (name state : String) : String × String :=
  (stripS (lowerS name), stripS (upperS state))

/-- The per-row body of the output loop of build_corrected_rev_incept.py:
strip the identity fields, skip empty names, look the (name, state) key up
in the corrections table; on a hit emit the correction's five result fields
(None rendered as the empty string), otherwise pass the resolver's five
result fields through unchanged. -/
def buildCorrectedRow (table : String × String → Option Correction)
    (r : CorrRow) : Option CorrectedRow :=
  let name := stripS r.name
  let state := upperS (stripS r.state)
  let lms := stripS r.lms
  let nces := stripS r.nces
  if name = "" then none else
  match table (stripS (lowerS name), state) with
  | some c =>
    some ⟨name, state, lms, nces, c.leaid.getD "", c.dbName.getD "", c.mtype, c.conf, c.notes⟩
  | none =>
    some ⟨name, state, lms, nces, r.mLeaid, r.mName, r.mType, r.mConf, r.mNotes⟩

/-- A maximally collapsed string has no two adjacent space characters. -/
def noDoubleSpace : List Char → Bool
  | [] => true
  | [_] => true
  | a :: b :: t => !((a == ' ') && (b == ' ')) && noDoubleSpace (b :: t)

/-- Well-formedness of a normalize output: only lowercase letters and single
spaces, no leading or trailing space. -/
def CleanOut (t : List Char) : Prop :=
  (∀ c ∈ t, isLowerAZ c = true ∨ c = ' ') ∧ noDoubleSpace t = true ∧
    t.head? ≠ some ' ' ∧ t.getLast? ≠ some ' '

lemma not_space_of_lower {c : Char} (h : isLowerAZ c = true) : isSpaceChar c = false := by
  simp only [isLowerAZ, Bool.and_eq_true, decide_eq_true_eq] at h
  simp only [isSpaceChar, Bool.or_eq_false_iff, decide_eq_false_iff_not]
  omega

lemma ne_space_of_not_space {c : Char} (h : isSpaceChar c = false) : c ≠ ' ' := by
  intro hc
  subst hc
  exact absurd h (by decide)

lemma space_of_eq_space {c : Char} (h : c = ' ') : isSpaceChar c = true := by
  subst h
  decide

lemma eq_space_of_space {c : Char} (hm : isLowerAZ c = true ∨ c = ' ')
    (h : isSpaceChar c = true) : c = ' ' := by
  rcases hm with hl | he
  · rw [not_space_of_lower hl] at h
    cases h
  · exact he

lemma not_digit_of_clean {c : Char} (hm : isLowerAZ c = true ∨ c = ' ') :
    isDigitChar c = false := by
  rcases hm with hl | he
  · simp only [isLowerAZ, Bool.and_eq_true, decide_eq_true_eq] at hl
    simp only [isDigitChar, Bool.and_eq_false_iff, decide_eq_false_iff_not]
    omega
  · subst he
    decide

lemma ne_lparen_of_clean {c : Char} (hm : isLowerAZ c = true ∨ c = ' ') : c ≠ '(' := by
  intro hc
  subst hc
  rcases hm with hl | he
  · simp [isLowerAZ] at hl
  · cases he

lemma lowerChar_fix {c : Char} (hm : isLowerAZ c = true ∨ c = ' ') : lowerChar c = c := by
  rcases hm with hl | he
  · simp only [isLowerAZ, Bool.and_eq_true, decide_eq_true_eq] at hl
    unfold lowerChar
    rw [if_neg]
    omega
  · subst he
    decide

lemma dropWhile_subset (p : Char → Bool) :
    ∀ (s : List Char), ∀ c ∈ s.dropWhile p, c ∈ s := by
  intro s
  induction s with
  | nil => simp
  | cons a t ih =>
    intro c hc
    rw [List.dropWhile_cons] at hc
    by_cases h : p a = true
    · rw [if_pos h] at hc
      exact List.mem_cons_of_mem a (ih c hc)
    · rw [if_neg h] at hc
      exact hc

lemma head_dropWhile_not (p : Char → Bool) :
    ∀ (s : List Char) {c : Char}, (s.dropWhile p).head? = some c → p c = false := by
  intro s
  induction s with
  | nil => simp
  | cons a t ih =>
    intro c hc
    rw [List.dropWhile_cons] at hc
    by_cases h : p a = true
    · rw [if_pos h] at hc
      exact ih hc
    · rw [if_neg h] at hc
      simp only [List.head?_cons, Option.some.injEq] at hc
      subst hc
      simpa using h

lemma dropWhile_id_of_head (p : Char → Bool) (s : List Char)
    (h : ∀ c, s.head? = some c → p c = false) : s.dropWhile p = s := by
  cases s with
  | nil => rfl
  | cons a t =>
    rw [List.dropWhile_cons, if_neg]
    simp [h a rfl]

lemma noDoubleSpace_tail {a : Char} {l : List Char}
    (h : noDoubleSpace (a :: l) = true) : noDoubleSpace l = true := by
  cases l with
  | nil => rfl
  | cons b t =>
    rw [noDoubleSpace] at h
    exact (Bool.and_eq_true_iff.mp h).2

lemma noDoubleSpace_cons {a b : Char} {l : List Char}
    (h : noDoubleSpace (a :: b :: l) = true) : ¬(a = ' ' ∧ b = ' ') := by
  rw [noDoubleSpace, Bool.and_eq_true_iff] at h
  rcases h with ⟨h1, _⟩
  rintro ⟨ha, hb⟩
  subst ha
  subst hb
  simp at h1

lemma noDoubleSpace_cons_of {a : Char} {l : List Char} (ha : a ≠ ' ')
    (h : noDoubleSpace l = true) : noDoubleSpace (a :: l) = true := by
  cases l with
  | nil => rfl
  | cons b t =>
    rw [noDoubleSpace, Bool.and_eq_true_iff]
    refine ⟨?_, h⟩
    simp [ha]

lemma noDoubleSpace_append_right :
    ∀ (t u : List Char), noDoubleSpace (t ++ u) = true → noDoubleSpace u = true := by
  intro t
  induction t with
  | nil => intro u h; exact h
  | cons a t ih =>
    intro u h
    exact ih u (noDoubleSpace_tail h)

lemma noDoubleSpace_append_left :
    ∀ (u t : List Char), noDoubleSpace (u ++ t) = true → noDoubleSpace u = true := by
  intro u
  induction u with
  | nil => intro t _; rfl
  | cons a u ih =>
    intro t h
    cases u with
    | nil => rfl
    | cons b v =>
      simp only [List.cons_append] at h
      rw [noDoubleSpace, Bool.and_eq_true_iff] at h
      rcases h with ⟨h1, h2⟩
      rw [noDoubleSpace, Bool.and_eq_true_iff]
      refine ⟨h1, ih t ?_⟩
      simpa only [List.cons_append] using h2

lemma collapseWs_mem :
    ∀ (s : List Char), ∀ c ∈ collapseWs s, c = ' ' ∨ (c ∈ s ∧ isSpaceChar c = false) := by
  intro s
  induction s with
  | nil => simp [collapseWs]
  | cons a t ih =>
    cases t with
    | nil =>
      intro c hc
      by_cases h : isSpaceChar a = true
      · rw [collapseWs, if_pos h] at hc
        left
        simpa using hc
      · rw [collapseWs, if_neg h] at hc
        right
        refine ⟨by simpa using hc, ?_⟩
        rw [List.mem_singleton] at hc
        subst hc
        simpa using h
    | cons b t' =>
      intro c hc
      rw [collapseWs] at hc
      by_cases hab : (isSpaceChar a && isSpaceChar b) = true
      · rw [if_pos hab] at hc
        rcases ih c hc with h | ⟨hm, hs⟩
        · left; exact h
        · right; exact ⟨List.mem_cons_of_mem a hm, hs⟩
      · rw [if_neg hab] at hc
        rcases List.mem_cons.mp hc with h | h
        · by_cases ha : isSpaceChar a = true
          · rw [if_pos ha] at h
            left; exact h
          · rw [if_neg ha] at h
            right
            constructor
            · rw [h]
              exact List.mem_cons_self a _
            · rw [h]
              simpa using ha
        · rcases ih c h with h2 | ⟨hm, hs⟩
          · left; exact h2
          · right; exact ⟨List.mem_cons_of_mem a hm, hs⟩

lemma collapseWs_cons_nonspace {b : Char} (hb : isSpaceChar b = false) :
    ∀ (t : List Char), ∃ y, collapseWs (b :: t) = b :: y := by
  intro t
  cases t with
  | nil =>
    refine ⟨[], ?_⟩
    rw [collapseWs, if_neg (by simp [hb])]
  | cons d t' =>
    refine ⟨collapseWs (d :: t'), ?_⟩
    rw [collapseWs, if_neg (by simp [hb]), if_neg (by simp [hb])]

lemma collapseWs_noDouble : ∀ (s : List Char), noDoubleSpace (collapseWs s) = true := by
  intro s
  induction s with
  | nil => rfl
  | cons a t ih =>
    cases t with
    | nil =>
      by_cases h : isSpaceChar a = true
      · rw [collapseWs, if_pos h]; rfl
      · rw [collapseWs, if_neg h]; rfl
    | cons b t' =>
      rw [collapseWs]
      by_cases hab : (isSpaceChar a && isSpaceChar b) = true
      · rw [if_pos hab]
        exact ih
      · rw [if_neg hab]
        by_cases ha : isSpaceChar a = true
        · have hb : isSpaceChar b = false := by
            cases hsb : isSpaceChar b
            · rfl
            · rw [ha, hsb] at hab
              cases hab rfl
          obtain ⟨y, hy⟩ := collapseWs_cons_nonspace hb t'
          rw [if_pos ha, hy]
          rw [noDoubleSpace, Bool.and_eq_true_iff]
          constructor
          · have : (b == ' ') = false := by
              simp [ne_space_of_not_space hb]
            simp [this]
          · rw [← hy]
            exact ih
        · rw [if_neg ha]
          exact noDoubleSpace_cons_of
            (ne_space_of_not_space (by simpa using ha)) ih

lemma stripChars_subset (s : List Char) : ∀ c ∈ stripChars s, c ∈ s := by
  intro c hc
  unfold stripChars at hc
  rw [List.mem_reverse] at hc
  have h1 := dropWhile_subset isSpaceChar _ c hc
  rw [List.mem_reverse] at h1
  exact dropWhile_subset isSpaceChar s c h1

lemma dropWhile_eq_append (p : Char → Bool) (s : List Char) :
    ∃ t, s = t ++ s.dropWhile p :=
  ⟨s.takeWhile p, (List.takeWhile_append_dropWhile p s).symm⟩

lemma stripChars_key (s : List Char) :
    ∃ t : List Char, stripChars s ++ t = s.dropWhile isSpaceChar := by
  obtain ⟨t2, ht2⟩ := dropWhile_eq_append isSpaceChar (s.dropWhile isSpaceChar).reverse
  refine ⟨t2.reverse, ?_⟩
  unfold stripChars
  rw [← List.reverse_append, ← ht2, List.reverse_reverse]

lemma stripChars_noDouble {s : List Char} (h : noDoubleSpace s = true) :
    noDoubleSpace (stripChars s) = true := by
  obtain ⟨t1, ht1⟩ := dropWhile_eq_append isSpaceChar s
  have hu : noDoubleSpace (s.dropWhile isSpaceChar) = true := by
    apply noDoubleSpace_append_right t1
    rw [← ht1]
    exact h
  obtain ⟨t2, ht2⟩ := stripChars_key s
  apply noDoubleSpace_append_left _ t2
  rw [ht2]
  exact hu

lemma head?_append_left {l t : List Char} (h : l ≠ []) : (l ++ t).head? = l.head? := by
  cases l with
  | nil => cases h rfl
  | cons a u => rfl

lemma getLast?_rev (l : List Char) : l.reverse.getLast? = l.head? := by
  cases l with
  | nil => rfl
  | cons a u => rw [List.head?_cons, List.reverse_cons, List.getLast?_concat]

lemma stripChars_head_not_space (s : List Char) {c : Char}
    (hc : (stripChars s).head? = some c) : isSpaceChar c = false := by
  have hne : stripChars s ≠ [] := by
    intro h0
    rw [h0] at hc
    cases hc
  obtain ⟨t2, ht2⟩ := stripChars_key s
  have h2 : (s.dropWhile isSpaceChar).head? = some c := by
    rw [← ht2, head?_append_left hne, hc]
  exact head_dropWhile_not isSpaceChar s h2

lemma stripChars_last_not_space (s : List Char) {c : Char}
    (hc : (stripChars s).getLast? = some c) : isSpaceChar c = false := by
  unfold stripChars at hc
  rw [getLast?_rev] at hc
  exact head_dropWhile_not isSpaceChar _ hc

lemma finalScrub_clean (s : List Char) : CleanOut (finalScrub s) := by
  unfold finalScrub
  have hmemc : ∀ c ∈ collapseWs (s.filter (fun c => isLowerAZ c || isSpaceChar c)),
      isLowerAZ c = true ∨ c = ' ' := by
    intro c hc
    rcases collapseWs_mem _ c hc with h | ⟨hmem, hsp⟩
    · right; exact h
    · left
      have hk := (List.mem_filter.mp hmem).2
      cases hl : isLowerAZ c
      · rw [hl, hsp] at hk
        cases hk
      · rfl
  refine ⟨?_, ?_, ?_, ?_⟩
  · intro c hc
    exact hmemc c (stripChars_subset _ c hc)
  · exact stripChars_noDouble (collapseWs_noDouble _)
  · intro h
    exact absurd (stripChars_head_not_space _ h) (by decide)
  · intro h
    exact absurd (stripChars_last_not_space _ h) (by decide)

lemma normalize_wf (s : List Char) : CleanOut (normalize s) := by
  unfold normalize
  by_cases h : s.isEmpty = true
  · rw [if_pos h]
    exact ⟨by simp, rfl, by simp, by simp⟩
  · rw [if_neg h]
    exact finalScrub_clean _

lemma occursIn_cons_elim {p : List Char} {c : Char} {s : List Char}
    (h : occursIn p (c :: s) = false) :
    p.isPrefixOf (c :: s) = false ∧ occursIn p s = false := by
  rw [occursIn, Bool.or_eq_false_iff] at h
  exact h

lemma replaceAllGo_id (p r : List Char) :
    ∀ (n : Nat) (s : List Char), occursIn p s = false → replaceAllGo p r n s = s := by
  intro n
  induction n with
  | zero =>
    intro s _
    cases s <;> rfl
  | succ n ih =>
    intro s h
    cases s with
    | nil => rfl
    | cons c t =>
      obtain ⟨h1, h2⟩ := occursIn_cons_elim h
      rw [replaceAllGo, if_neg (by simp [h1]), ih t h2]

lemma replaceAll_id {p : List Char} (r : List Char) {s : List Char}
    (h : occursIn p s = false) : replaceAll p r s = s :=
  replaceAllGo_id p r s.length s h

lemma foldl_replace_id :
    ∀ (ws : List (List Char)) (s : List Char), (∀ w ∈ ws, occursIn w s = false) →
      ws.foldl (fun t w => replaceAll w [] t) s = s := by
  intro ws
  induction ws with
  | nil =>
    intro s _
    rfl
  | cons w ws ih =>
    intro s h
    rw [List.foldl_cons, replaceAll_id [] (h w (List.mem_cons_self w ws))]
    exact ih s (fun w' hw' => h w' (List.mem_cons_of_mem w hw'))

lemma isPrefixOf_false_of_ne_head {p' s : List Char} {a : Char}
    (h : ∀ c ∈ s, c ≠ a) : (a :: p').isPrefixOf s = false := by
  cases s with
  | nil => rfl
  | cons b t =>
    rw [List.isPrefixOf_cons₂, Bool.and_eq_false_iff]
    left
    have hba : b ≠ a := h b (List.mem_cons_self b t)
    simp [beq_eq_false_iff_ne]
    intro hab
    exact hba hab.symm

lemma mem_of_head? {l : List Char} {a : Char} (h : l.head? = some a) : a ∈ l := by
  cases l with
  | nil => cases h
  | cons x y =>
    simp only [List.head?_cons, Option.some.injEq] at h
    rw [← h]
    exact List.mem_cons_self x y

lemma matchParenTag_none {s : List Char} (h : ∀ c ∈ s, c ≠ '(') :
    matchParenTag s = none := by
  have hd : ∀ c ∈ s.dropWhile isSpaceChar, c ≠ '(' :=
    fun c hc => h c (dropWhile_subset isSpaceChar s c hc)
  have e1 : ("(dupe)".toList).isPrefixOf (s.dropWhile isSpaceChar) = false := by
    rw [show ("(dupe)".toList) = '(' :: "dupe)".toList from rfl]
    exact isPrefixOf_false_of_ne_head hd
  have e2 : ("(district)".toList).isPrefixOf (s.dropWhile isSpaceChar) = false := by
    rw [show ("(district)".toList) = '(' :: "district)".toList from rfl]
    exact isPrefixOf_false_of_ne_head hd
  simp only [matchParenTag]
  rw [e1, e2]
  simp

lemma subParenTagGo_id :
    ∀ (n : Nat) (s : List Char), (∀ c ∈ s, c ≠ '(') → subParenTagGo n s = s := by
  intro n
  induction n with
  | zero =>
    intro s _
    cases s <;> rfl
  | succ n ih =>
    intro s h
    cases s with
    | nil => rfl
    | cons c t =>
      rw [subParenTagGo, matchParenTag_none h]
      rw [ih t (fun c' hc' => h c' (List.mem_cons_of_mem c hc'))]

lemma subParenTag_id {s : List Char} (h : ∀ c ∈ s, c ≠ '(') : subParenTag s = s :=
  subParenTagGo_id s.length s h

lemma matchParen_none {s : List Char} (h : ∀ c ∈ s, c ≠ '(') : matchParen s = none := by
  have h' : ¬ (s.dropWhile isSpaceChar).head? = some '(' := by
    intro hc
    exact h '(' (dropWhile_subset isSpaceChar s '(' (mem_of_head? hc)) rfl
  simp only [matchParen]
  rw [if_neg h']

lemma subParenGo_id :
    ∀ (n : Nat) (s : List Char), (∀ c ∈ s, c ≠ '(') → subParenGo n s = s := by
  intro n
  induction n with
  | zero =>
    intro s _
    cases s <;> rfl
  | succ n ih =>
    intro s h
    cases s with
    | nil => rfl
    | cons c t =>
      rw [subParenGo, matchParen_none h]
      rw [ih t (fun c' hc' => h c' (List.mem_cons_of_mem c hc'))]

lemma subParen_id {s : List Char} (h : ∀ c ∈ s, c ≠ '(') : subParen s = s :=
  subParenGo_id s.length s h

lemma numTailCore_false {s : List Char} (h : ∀ c ∈ s, isDigitChar c = false) :
    numTailCore s = false := by
  unfold numTailCore
  cases s with
  | nil => rfl
  | cons c t =>
    rw [List.takeWhile_cons, h c (List.mem_cons_self c t)]
    rfl

lemma drop_one_subset (s : List Char) : ∀ c ∈ s.drop 1, c ∈ s :=
  fun _ hc => List.drop_subset 1 s hc

lemma dropHash_subset (s : List Char) : ∀ c ∈ dropHash s, c ∈ s := by
  intro c hc
  unfold dropHash at hc
  by_cases h : s.head? = some '#'
  · rw [if_pos h] at hc
    exact drop_one_subset s c hc
  · rw [if_neg h] at hc
    exact hc

lemma dropDot_subset (s : List Char) : ∀ c ∈ dropDot s, c ∈ s := by
  intro c hc
  unfold dropDot at hc
  by_cases h : s.head? = some '.'
  · rw [if_pos h] at hc
    exact drop_one_subset s c hc
  · rw [if_neg h] at hc
    exact hc

lemma dropDash_subset (s : List Char) : ∀ c ∈ dropDash s, c ∈ s := by
  intro c hc
  unfold dropDash at hc
  by_cases h : s.head? = some '-'
  · rw [if_pos h] at hc
    exact drop_one_subset s c hc
  · rw [if_neg h] at hc
    exact hc

lemma drop_two_subset (s : List Char) : ∀ c ∈ s.drop 2, c ∈ s :=
  fun _ hc => List.drop_subset 2 s hc

lemma dropNoTag_subset (s : List Char) : ∀ c ∈ dropNoTag s, c ∈ s := by
  intro c hc
  unfold dropNoTag at hc
  by_cases h : ("no".toList).isPrefixOf s = true
  · rw [if_pos h] at hc
    exact drop_two_subset s c
      (dropDot_subset _ c (dropWhile_subset isSpaceChar _ c hc))
  · rw [if_neg h] at hc
    exact hc

lemma dropReTag_subset (s : List Char) : ∀ c ∈ dropReTag s, c ∈ s := by
  intro c hc
  unfold dropReTag at hc
  by_cases h : ("re".toList).isPrefixOf s = true
  · rw [if_pos h] at hc
    exact drop_two_subset s c (dropDash_subset _ c hc)
  · rw [if_neg h] at hc
    exact hc

lemma isNumTail1_false {s : List Char} (h : ∀ c ∈ s, isDigitChar c = false) :
    isNumTail1 s = false := by
  apply numTailCore_false
  intro c hc
  apply h
  exact dropWhile_subset isSpaceChar s c
    (dropHash_subset _ c
      (dropWhile_subset isSpaceChar _ c
        (dropNoTag_subset _ c (dropReTag_subset _ c hc))))

lemma isNumTail2_false {s : List Char} (h : ∀ c ∈ s, isDigitChar c = false) :
    isNumTail2 s = false := by
  apply numTailCore_false
  intro c hc
  exact h c (dropWhile_subset isSpaceChar s c hc)

lemma stripTail_id {m : List Char → Bool}
    (hm : ∀ u : List Char, (∀ c ∈ u, isDigitChar c = false) → m u = false) :
    ∀ (s : List Char), (∀ c ∈ s, isDigitChar c = false) → stripTail m s = s := by
  intro s
  induction s with
  | nil =>
    intro _
    rfl
  | cons c t ih =>
    intro h
    rw [stripTail, if_neg (by simp [hm (c :: t) h])]
    rw [ih (fun c' hc' => h c' (List.mem_cons_of_mem c hc'))]

lemma listLower_id {s : List Char} (h : ∀ c ∈ s, isLowerAZ c = true ∨ c = ' ') :
    listLower s = s := by
  unfold listLower
  induction s with
  | nil => rfl
  | cons c t ih =>
    rw [List.map_cons, lowerChar_fix (h c (List.mem_cons_self c t))]
    rw [ih (fun c' hc' => h c' (List.mem_cons_of_mem c hc'))]

lemma filter_id {p : Char → Bool} :
    ∀ {s : List Char}, (∀ c ∈ s, p c = true) → s.filter p = s := by
  intro s
  induction s with
  | nil =>
    intro _
    rfl
  | cons c t ih =>
    intro h
    rw [List.filter_cons, if_pos (h c (List.mem_cons_self c t))]
    rw [ih (fun c' hc' => h c' (List.mem_cons_of_mem c hc'))]

lemma collapseWs_id :
    ∀ (s : List Char), (∀ c ∈ s, isLowerAZ c = true ∨ c = ' ') →
      noDoubleSpace s = true → collapseWs s = s := by
  intro s
  induction s with
  | nil =>
    intro _ _
    rfl
  | cons a t ih =>
    intro hmem hnd
    cases t with
    | nil =>
      by_cases h : isSpaceChar a = true
      · rw [collapseWs, if_pos h,
          eq_space_of_space (hmem a (List.mem_cons_self a [])) h]
      · rw [collapseWs, if_neg h]
    | cons b t' =>
      have hii := ih (fun c hc => hmem c (List.mem_cons_of_mem a hc)) (noDoubleSpace_tail hnd)
      have hnab := noDoubleSpace_cons hnd
      rw [collapseWs]
      by_cases hab : (isSpaceChar a && isSpaceChar b) = true
      · exfalso
        rcases Bool.and_eq_true_iff.mp hab with ⟨ha, hb⟩
        apply hnab
        constructor
        · exact eq_space_of_space (hmem a (List.mem_cons_self a _)) ha
        · exact eq_space_of_space
            (hmem b (List.mem_cons_of_mem a (List.mem_cons_self b t'))) hb
      · rw [if_neg hab, hii]
        by_cases ha : isSpaceChar a = true
        · rw [if_pos ha,
            eq_space_of_space (hmem a (List.mem_cons_self a _)) ha]
        · rw [if_neg ha]

lemma stripChars_id {s : List Char} (hmem : ∀ c ∈ s, isLowerAZ c = true ∨ c = ' ')
    (h1 : s.head? ≠ some ' ') (h2 : s.getLast? ≠ some ' ') : stripChars s = s := by
  have key1 : s.dropWhile isSpaceChar = s := by
    apply dropWhile_id_of_head
    intro c hc
    apply not_space_of_lower
    rcases hmem c (mem_of_head? hc) with hl | he
    · exact hl
    · exfalso
      apply h1
      rw [← he]
      exact hc
  have key2 : s.reverse.dropWhile isSpaceChar = s.reverse := by
    apply dropWhile_id_of_head
    intro c hc
    have hm : c ∈ s := List.mem_reverse.mp (mem_of_head? hc)
    rw [List.head?_reverse] at hc
    apply not_space_of_lower
    rcases hmem c hm with hl | he
    · exact hl
    · exfalso
      apply h2
      rw [← he]
      exact hc
  unfold stripChars
  rw [key1, key2, List.reverse_reverse]

/-- The three abbreviation expansion triggers of normalize. -/
def abbrevKeys : List (List Char) := [" isd".toList, " cusd".toList, " usd".toList]

/-- A string is trigger-free when no abbreviation key and no suffix phrase
occurs in it as a substring: on such strings the replacement stages of
normalize cannot fire. -/
def noMatchTriggers (t : List Char) : Bool :=
  abbrevKeys.all (fun p => !occursIn p t) && suffixWords.all (fun p => !occursIn p t)

lemma normalize_fixed {t : List Char} (hcl : CleanOut t)
    (htr : noMatchTriggers t = true) : normalize t = t := by
  obtain ⟨hmem, hnd, hh, hl⟩ := hcl
  rw [noMatchTriggers, Bool.and_eq_true_iff] at htr
  obtain ⟨ha, hs⟩ := htr
  rw [List.all_eq_true] at ha hs
  have hocc : ∀ p ∈ abbrevKeys, occursIn p t = false := fun p hp => by
    simpa using ha p hp
  have hocc2 : ∀ p ∈ suffixWords, occursIn p t = false := fun p hp => by
    simpa using hs p hp
  cases ht : t with
  | nil => rfl
  | cons c0 t0 =>
    rw [← ht]
    have htne : t.isEmpty = false := by rw [ht]; rfl
    have e0 : listLower t = t := listLower_id hmem
    have e1 : stripChars t = t := stripChars_id hmem hh hl
    have hpar : ∀ c ∈ t, c ≠ '(' := fun c hc => ne_lparen_of_clean (hmem c hc)
    have e2 : subParenTag t = t := subParenTag_id hpar
    have e3 : subParen t = t := subParen_id hpar
    have e4 : replaceAll (" isd".toList) (" independent school district".toList) t = t :=
      replaceAll_id _ (hocc _ (by simp [abbrevKeys]))
    have e5 : replaceAll (" cusd".toList) (" community unit school district".toList) t = t :=
      replaceAll_id _ (hocc _ (by simp [abbrevKeys]))
    have e6 : replaceAll (" usd".toList) (" unified school district".toList) t = t :=
      replaceAll_id _ (hocc _ (by simp [abbrevKeys]))
    have e7 : removeSuffixWords t = t := foldl_replace_id suffixWords t hocc2
    have hnodig : ∀ c ∈ t, isDigitChar c = false := fun c hc => not_digit_of_clean (hmem c hc)
    have e8 : stripTail isNumTail1 t = t :=
      stripTail_id (fun u hu => isNumTail1_false hu) t hnodig
    have e9 : stripTail isNumTail2 t = t :=
      stripTail_id (fun u hu => isNumTail2_false hu) t hnodig
    have e10 : t.filter (fun c => isLowerAZ c || isSpaceChar c) = t := by
      apply filter_id
      intro c hc
      rcases hmem c hc with hlc | hsp
      · simp [hlc]
      · simp [space_of_eq_space hsp]
    have e11 : collapseWs t = t := collapseWs_id t hmem hnd
    unfold normalize
    rw [if_neg (by simp [htne])]
    rw [e0, e1, e2, e3, e4, e5, e6, e7, e8, e9]
    unfold finalScrub
    rw [e10, e11, e1]

/-- The descending-score order used to state sortedness of the ranked list. -/
def geScore (a b : ScoredEntry) : Prop := b.score ≤ a.score

lemma insertDesc_perm (x : ScoredEntry) :
    ∀ (l : List ScoredEntry), (insertDesc x l).Perm (x :: l) := by
  intro l
  induction l with
  | nil => exact List.Perm.refl _
  | cons y ys ih =>
    rw [insertDesc]
    by_cases h : y.score < x.score
    · rw [if_pos h]
    · rw [if_neg h]
      exact (ih.cons y).trans (List.Perm.swap x y ys)

lemma insertDesc_pairwise {x : ScoredEntry} :
    ∀ {l : List ScoredEntry}, l.Pairwise geScore → (insertDesc x l).Pairwise geScore := by
  intro l
  induction l with
  | nil =>
    intro _
    exact List.pairwise_singleton geScore x
  | cons y ys ih =>
    intro h
    rw [List.pairwise_cons] at h
    obtain ⟨hy, hys⟩ := h
    rw [insertDesc]
    by_cases hlt : y.score < x.score
    · rw [if_pos hlt, List.pairwise_cons]
      constructor
      · intro z hz
        rcases List.mem_cons.mp hz with hz' | hz'
        · rw [hz']
          exact le_of_lt hlt
        · exact le_trans (hy z hz') (le_of_lt hlt)
      · rw [List.pairwise_cons]
        exact ⟨hy, hys⟩
    · rw [if_neg hlt, List.pairwise_cons]
      constructor
      · intro z hz
        rcases List.mem_cons.mp ((insertDesc_perm x ys).mem_iff.mp hz) with hz' | hz'
        · rw [hz']
          exact le_of_not_lt hlt
        · exact hy z hz'
      · exact ih hys

lemma filter_nil_of_top_lt {q : ℚ} {y : ScoredEntry} {ys : List ScoredEntry}
    (hp : (y :: ys).Pairwise geScore) (hy : y.score < q) :
    (y :: ys).filter (fun e => e.score == q) = [] := by
  rw [List.filter_eq_nil_iff]
  intro z hz
  rcases List.mem_cons.mp hz with hz' | hz'
  · rw [hz']
    simp only [beq_iff_eq]
    exact ne_of_lt hy
  · have : z.score ≤ y.score := (List.pairwise_cons.mp hp).1 z hz'
    simp only [beq_iff_eq]
    exact ne_of_lt (lt_of_le_of_lt this hy)

lemma insertDesc_filter (q : ℚ) (x : ScoredEntry) :
    ∀ (l : List ScoredEntry), l.Pairwise geScore →
      (insertDesc x l).filter (fun e => e.score == q) =
        if x.score = q then l.filter (fun e => e.score == q) ++ [x]
        else l.filter (fun e => e.score == q) := by
  intro l
  induction l with
  | nil =>
    intro _
    by_cases hq : x.score = q <;> simp [insertDesc, List.filter_cons, hq]
  | cons y ys ih =>
    intro hp
    have hys : ys.Pairwise geScore := (List.pairwise_cons.mp hp).2
    rw [insertDesc]
    by_cases hlt : y.score < x.score
    · rw [if_pos hlt]
      by_cases hq : x.score = q
      · have hnil : (y :: ys).filter (fun e => e.score == q) = [] :=
          filter_nil_of_top_lt hp (by rw [← hq]; exact hlt)
        simp [List.filter_cons, hq, hnil]
      · simp [List.filter_cons, hq]
    · rw [if_neg hlt]
      by_cases hyq : y.score = q <;> by_cases hq : x.score = q <;>
        simp [List.filter_cons, ih hys, hyq, hq]

lemma foldl_insert_pairwise :
    ∀ (l acc : List ScoredEntry), acc.Pairwise geScore →
      (l.foldl (fun a x => insertDesc x a) acc).Pairwise geScore := by
  intro l
  induction l with
  | nil =>
    intro acc h
    exact h
  | cons x l ih =>
    intro acc h
    rw [List.foldl_cons]
    exact ih (insertDesc x acc) (insertDesc_pairwise h)

lemma foldl_insert_perm :
    ∀ (l acc : List ScoredEntry),
      (l.foldl (fun a x => insertDesc x a) acc).Perm (acc ++ l) := by
  intro l
  induction l with
  | nil =>
    intro acc
    rw [List.foldl_nil, List.append_nil]
  | cons x l ih =>
    intro acc
    rw [List.foldl_cons]
    refine ((ih (insertDesc x acc)).trans ?_)
    refine (((insertDesc_perm x acc).append_right l).trans ?_)
    exact List.perm_middle.symm

lemma foldl_insert_filter (q : ℚ) :
    ∀ (l acc : List ScoredEntry), acc.Pairwise geScore →
      (l.foldl (fun a x => insertDesc x a) acc).filter (fun e => e.score == q) =
        acc.filter (fun e => e.score == q) ++ l.filter (fun e => e.score == q) := by
  intro l
  induction l with
  | nil =>
    intro acc _
    rw [List.foldl_nil, List.filter_nil, List.append_nil]
  | cons x l ih =>
    intro acc h
    rw [List.foldl_cons, ih _ (insertDesc_pairwise h), insertDesc_filter q x acc h]
    rw [List.filter_cons]
    by_cases hq : x.score = q
    · rw [if_pos hq, if_pos (by simp [hq])]
      rw [List.append_assoc]
      rfl
    · rw [if_neg hq, if_neg (by simp [hq])]

lemma sortDesc_pairwise (l : List ScoredEntry) : (sortDesc l).Pairwise geScore :=
  foldl_insert_pairwise l [] (List.Pairwise.nil)

lemma sortDesc_perm (l : List ScoredEntry) : (sortDesc l).Perm l :=
  foldl_insert_perm l []

lemma sortDesc_filter (q : ℚ) (l : List ScoredEntry) :
    (sortDesc l).filter (fun e => e.score == q) = l.filter (fun e => e.score == q) :=
  foldl_insert_filter q l [] (List.Pairwise.nil)

/-- C1 (counterexample): a record whose supplied id 123 is present in the
registry but whose name contains the non-K12 keyword methodist home is
diverted to NON_K12 before the supplied-id lookup ever runs, so the pipeline
does not return VERIFIED with that entity — refuting the claim's regardless
of name content. -/
theorem c1_suppliedId_counterexample :
    (verifiedLookup [⟨"123", "Foo District", "TX", ""⟩] "123").isSome = true ∧
    processRow [⟨"123", "Foo District", "TX", ""⟩] ⟨"Methodist Home", "TX", "", "123"⟩ =
      some ⟨"Methodist Home", "TX", "", "123", "", "", "NON_K12", "N/A", [], false,
        "University/college/non-K12 entity"⟩ :=
  ⟨by decide, by decide⟩

/-- C1 (amended): for every input record whose stripped name is non-empty and
not a sentinel, whose cleaned name contains no non-K12 keyword, and whose
state is not the INT marker, a supplied id found in the registry makes the
pipeline emit exactly that entity with VERIFIED/HIGH, regardless of the
remaining name content. -/
theorem c1_suppliedId_verified (reg : List District) (r : InputRow) (d : District)
    (h1 : stripS r.name ≠ "") (h2 : stripS r.name ∉ sentinelNames)
    (h3 : is_non_k12 (cleanNameOf (stripS r.name)) = false)
    (h4 : upperS (stripS r.state) ≠ "INT")
    (h5 : stripS r.nces ≠ "")
    (h6 : verifiedLookup reg (stripS r.nces) = some d) :
    processRow reg r = some ⟨stripS r.name, upperS (stripS r.state), stripS r.lms,
      stripS r.nces, d.leaid, d.name, "VERIFIED", "HIGH", [], false, ""⟩ := by
  simp only [processRow]
  rw [if_neg (by push_neg; exact ⟨h1, h2⟩)]
  rw [if_neg (by simp [h3])]
  rw [if_neg h4]
  rw [if_pos h5]
  rw [h6]

/-- C1 (witness): the amended claim instantiated on a concrete registry and
record. -/
theorem c1_suppliedId_witness :
    processRow [⟨"42", "Alief Independent School District", "TX", ""⟩]
        ⟨"Alief Isd", "TX", "", "42"⟩ =
      some ⟨"Alief Isd", "TX", "", "42", "42", "Alief Independent School District",
        "VERIFIED", "HIGH", [], false, ""⟩ :=
  c1_suppliedId_verified [⟨"42", "Alief Independent School District", "TX", ""⟩]
    ⟨"Alief Isd", "TX", "", "42"⟩ ⟨"42", "Alief Independent School District", "TX", ""⟩
    (by decide) (by decide) (by decide) (by decide) (by decide) (by decide)

/-- C2: when the (lowercased-trimmed name, uppercased state) key is present
in the override table, the corrected output row carries exactly the
override's five result fields — independent of every resolver field on the
input row — and when the key is absent the resolver's five fields pass
through unchanged. -/
theorem c2_override_replaces (table : String × String → Option Correction)
    (r : CorrRow) (h : stripS r.name ≠ "") :
    (∀ c, table (stripS (lowerS (stripS r.name)), upperS (stripS r.state)) = some c →
      buildCorrectedRow table r =
        some ⟨stripS r.name, upperS (stripS r.state), stripS r.lms, stripS r.nces,
          c.leaid.getD "", c.dbName.getD "", c.mtype, c.conf, c.notes⟩) ∧
    (table (stripS (lowerS (stripS r.name)), upperS (stripS r.state)) = none →
      buildCorrectedRow table r =
        some ⟨stripS r.name, upperS (stripS r.state), stripS r.lms, stripS r.nces,
          r.mLeaid, r.mName, r.mType, r.mConf, r.mNotes⟩) := by
  constructor
  · intro c hc
    simp only [buildCorrectedRow]
    rw [if_neg h, hc]
  · intro hc
    simp only [buildCorrectedRow]
    rw [if_neg h, hc]

/-- A one-entry override table modelled through the add() key construction,
holding the Alief Isd correction of the source. -/
def sampleTable (k : String × String) : Option Correction :=
  if k = addKey "Alief Isd" "TX" then
    some ⟨some "4807530", some "Alief Independent School District", "CORRECTED", "HIGH",
      "ISD abbreviation"⟩
  else none

/-- C2 (witness): on a row whose resolver fields disagree with the curated
entry, the output carries the override fields only. -/
theorem c2_override_witness :
    buildCorrectedRow sampleTable
        ⟨"Alief Isd", "TX", "", "", "9999999", "Wrong Name", "WORD_OVERLAP", "LOW", "auto"⟩ =
      some ⟨"Alief Isd", "TX", "", "", "4807530", "Alief Independent School District",
        "CORRECTED", "HIGH", "ISD abbreviation"⟩ :=
  (c2_override_replaces sampleTable
      ⟨"Alief Isd", "TX", "", "", "9999999", "Wrong Name", "WORD_OVERLAP", "LOW", "auto"⟩
      (by decide)).1
    ⟨some "4807530", some "Alief Independent School District", "CORRECTED", "HIGH",
      "ISD abbreviation"⟩
    (by decide)

/-- C3 (counterexample): a name-scored resolution whose top score is one half
(< 0.60) is emitted as LOW_CONFIDENCE with confidence LOW, not with tier
NONE as the claim states. -/
theorem c3_tiering_counterexample :
    processRow [⟨"9", "Alpha Gamma Delta", "TX", ""⟩] ⟨"Alpha Beta", "TX", "", ""⟩ =
      some ⟨"Alpha Beta", "TX", "", "", "", "", "LOW_CONFIDENCE", "LOW",
        [⟨mkRat 1 2, "9", "Alpha Gamma Delta", "WORD_OVERLAP"⟩], false, ""⟩ ∧
    mkRat 1 2 < mkRat 60 100 ∧
    Option.map (fun o => o.confidence)
        (processRow [⟨"9", "Alpha Gamma Delta", "TX", ""⟩] ⟨"Alpha Beta", "TX", "", ""⟩) ≠
      some "NONE" :=
  ⟨by decide, by decide, by decide⟩

/-- C3 (amended): the confidence tier is exactly this function of
(top score, scope): no candidates give NO_MATCH/NONE with no alternates;
top score at least 0.90 gives HIGH locally and MEDIUM globally; top score in
[0.60, 0.90) gives MEDIUM locally and LOW globally, both keeping the next
two entries as alternates; top score below 0.60 gives no chosen entity,
match type LOW_CONFIDENCE with confidence label LOW, and keeps the three
highest-scoring rejects as alternates. -/
theorem c3_tiering_table (nm st lm : String) (g : Bool) :
    (classify nm st lm [] g).confidence = "NONE" ∧
    (classify nm st lm [] g).matchType = "NO_MATCH" ∧
    (classify nm st lm [] g).alts = [] ∧
    ∀ (top : ScoredEntry) (rest : List ScoredEntry),
      (mkRat 90 100 ≤ top.score →
        (classify nm st lm (top :: rest) g).confidence = (if g then "MEDIUM" else "HIGH") ∧
        (classify nm st lm (top :: rest) g).matchedLeaid = top.leaid ∧
        (classify nm st lm (top :: rest) g).alts = rest.take 2) ∧
      (mkRat 60 100 ≤ top.score → top.score < mkRat 90 100 →
        (classify nm st lm (top :: rest) g).confidence = (if g then "LOW" else "MEDIUM") ∧
        (classify nm st lm (top :: rest) g).matchedLeaid = top.leaid ∧
        (classify nm st lm (top :: rest) g).alts = rest.take 2) ∧
      (top.score < mkRat 60 100 →
        (classify nm st lm (top :: rest) g).confidence = "LOW" ∧
        (classify nm st lm (top :: rest) g).matchType = "LOW_CONFIDENCE" ∧
        (classify nm st lm (top :: rest) g).matchedLeaid = "" ∧
        (classify nm st lm (top :: rest) g).alts = (top :: rest).take 3) := by
  refine ⟨rfl, rfl, rfl, ?_⟩
  intro top rest
  refine ⟨?_, ?_, ?_⟩
  · intro h9
    rw [classify, if_pos h9]
    exact ⟨rfl, rfl, rfl⟩
  · intro h6 h9
    rw [classify, if_neg (not_le.mpr h9), if_pos h6]
    exact ⟨rfl, rfl, rfl⟩
  · intro h6
    have h9 : top.score < mkRat 90 100 :=
      lt_trans h6 (by decide)
    rw [classify, if_neg (not_le.mpr h9), if_neg (not_le.mpr h6)]
    exact ⟨rfl, rfl, rfl, rfl⟩

/-- C3 (witness): the amended table instantiated at a concrete sub-0.60
scored list. -/
theorem c3_tiering_witness :
    (classify "Alpha Beta" "TX" ""
        [⟨mkRat 1 2, "9", "Alpha Gamma Delta", "WORD_OVERLAP"⟩] false).confidence = "LOW" ∧
    (classify "Alpha Beta" "TX" ""
        [⟨mkRat 1 2, "9", "Alpha Gamma Delta", "WORD_OVERLAP"⟩] false).matchType =
      "LOW_CONFIDENCE" := by
  have h := ((c3_tiering_table "Alpha Beta" "TX" "" false).2.2.2
    ⟨mkRat 1 2, "9", "Alpha Gamma Delta", "WORD_OVERLAP"⟩ []).2.2 (by decide)
  exact ⟨h.1, h.2.1⟩

/-- C4 (counterexample): with a jurisdiction hint ZZ whose bucket is empty,
the pipeline emits NO_STATE_DATA and performs no search at all — although the
same record without a hint is matched from the global pool — refuting the
claim that every other case searches the global pool. -/
theorem c4_scope_counterexample :
    processRow [⟨"1", "Alpha", "TX", ""⟩] ⟨"Alpha", "ZZ", "", ""⟩ =
      some ⟨"Alpha", "ZZ", "", "", "", "", "NO_STATE_DATA", "NONE", [], false,
        "No districts for state ZZ"⟩ ∧
    processRow [⟨"1", "Alpha", "TX", ""⟩] ⟨"Alpha", "", "", ""⟩ =
      some ⟨"Alpha", "", "", "", "1", "Alpha", "EXACT_NORM", "MEDIUM", [], true, ""⟩ :=
  ⟨by decide, by decide⟩

/-- C4 (amended): without a supplied id, a present hint with a non-empty
bucket searches the jurisdiction-local bucket; no hint searches the global
pool; a present hint with an empty bucket performs no search and emits a
NO_STATE_DATA row with confidence NONE. -/
theorem c4_scope_selection (reg : List District) (r : InputRow)
    (h1 : stripS r.name ≠ "") (h2 : stripS r.name ∉ sentinelNames)
    (h3 : is_non_k12 (cleanNameOf (stripS r.name)) = false)
    (h4 : upperS (stripS r.state) ≠ "INT")
    (h5 : stripS r.nces = "") :
    (upperS (stripS r.state) ≠ "" → stateBucket reg (upperS (stripS r.state)) ≠ [] →
      processRow reg r = some (resolveRow (stripS r.name) (upperS (stripS r.state))
        (stripS r.lms) (cleanNameOf (stripS r.name))
        (normalize (cleanNameOf (stripS r.name)).toList)
        (stateBucket reg (upperS (stripS r.state))) false)) ∧
    (upperS (stripS r.state) = "" →
      processRow reg r = some (resolveRow (stripS r.name) (upperS (stripS r.state))
        (stripS r.lms) (cleanNameOf (stripS r.name))
        (normalize (cleanNameOf (stripS r.name)).toList) reg true)) ∧
    (upperS (stripS r.state) ≠ "" → stateBucket reg (upperS (stripS r.state)) = [] →
      processRow reg r = some ⟨stripS r.name, upperS (stripS r.state), stripS r.lms, "",
        "", "", "NO_STATE_DATA", "NONE", [], false,
        String.append "No districts for state " (upperS (stripS r.state))⟩) := by
  refine ⟨?_, ?_, ?_⟩
  · intro hs hb
    simp only [processRow]
    rw [if_neg (by push_neg; exact ⟨h1, h2⟩), if_neg (by simp [h3]), if_neg h4,
      if_neg (by simp [h5]), if_pos ⟨hs, hb⟩]
  · intro hs
    simp only [processRow]
    rw [if_neg (by push_neg; exact ⟨h1, h2⟩), if_neg (by simp [h3]), if_neg h4,
      if_neg (by simp [h5]), if_neg (by simp [hs]), if_neg (by simp [hs])]
  · intro hs hb
    simp only [processRow]
    rw [if_neg (by push_neg; exact ⟨h1, h2⟩), if_neg (by simp [h3]), if_neg h4,
      if_neg (by simp [h5]), if_neg (by simp [hb]), if_pos hs]

/-- C4 (witness): the amended scope rule instantiated on the empty-bucket
case. -/
theorem c4_scope_witness :
    processRow [⟨"1", "Alpha", "TX", ""⟩] ⟨"Alpha", "ZZ", "", ""⟩ =
      some ⟨"Alpha", "ZZ", "", "", "", "", "NO_STATE_DATA", "NONE", [], false,
        String.append "No districts for state " "ZZ"⟩ :=
  (c4_scope_selection [⟨"1", "Alpha", "TX", ""⟩] ⟨"Alpha", "ZZ", "", ""⟩
      (by decide) (by decide) (by decide) (by decide) (by decide)).2.2
    (by decide) (by decide)

/-- C5: resolution is deterministic — the embedding is a pure function of
the snapshot and the record — and the ranking is the stable descending sort:
it is a permutation of the scored list, sorted by score, and within every
score class the registry enumeration order is preserved exactly. -/
theorem c5_determinism (reg : List District) (r : InputRow)
    (l : List ScoredEntry) (q : ℚ) :
    processRow reg r = processRow reg r ∧
    (sortDesc l).Perm l ∧
    (sortDesc l).Pairwise geScore ∧
    (sortDesc l).filter (fun e => e.score == q) = l.filter (fun e => e.score == q) :=
  ⟨rfl, sortDesc_perm l, sortDesc_pairwise l, sortDesc_filter q l⟩

/-- C6 (counterexample): normalize is not idempotent — on schodistrictol the
removal of district splices the characters scho and ol into the new phrase
school, which a second normalize then removes. -/
theorem c6_idempotence_counterexample :
    normalize (normalize ("schodistrictol".toList)) ≠ normalize ("schodistrictol".toList) := by
  decide

/-- C6 (amended): normalize is idempotent on every input whose normalized
form contains no abbreviation trigger and no suffix-vocabulary phrase as a
substring; in general a phrase removal can splice together a fresh
occurrence, so idempotence fails. -/
theorem c6_idempotent_when_trigger_free (x : List Char)
    (h : noMatchTriggers (normalize x) = true) :
    normalize (normalize x) = normalize x :=
  normalize_fixed (normalize_wf x) h

/-- C6 (witness): the amended idempotence applied at a concrete
trigger-free input. -/
theorem c6_idempotence_witness :
    normalize (normalize ("Alief".toList)) = normalize ("Alief".toList) :=
  c6_idempotent_when_trigger_free ("Alief".toList) (by decide)

/-- C7 (counterexample): one candidate in the overlap regime yields two
scored results — WORD_OVERLAP at 1 and ACCT_OVERLAP at one half — so the
scorer does not keep at most one result nor only the higher overlap. -/
theorem c7_overlap_counterexample :
    entriesFor "Alpha Beta" (normalize ("Alpha Beta".toList))
        ⟨"7", "Beta Alpha", "TX", "Alpha Delta Epsilon"⟩ =
      [⟨mkRat 1 1, "7", "Beta Alpha", "WORD_OVERLAP"⟩,
       ⟨mkRat 1 2, "7", "Beta Alpha", "ACCT_OVERLAP"⟩] ∧
    (entriesFor "Alpha Beta" (normalize ("Alpha Beta".toList))
        ⟨"7", "Beta Alpha", "TX", "Alpha Delta Epsilon"⟩).length = 2 :=
  ⟨by decide, by decide⟩

/-- C7 (amended): in the fall-through overlap regime the scorer evaluates
the primary-name overlap and the account-name overlap independently and
emits up to two results per candidate: WORD_OVERLAP exactly when its own
overlap reaches one half, plus ACCT_OVERLAP exactly when the account name is
non-empty and its own overlap reaches one half. -/
theorem c7_overlap_rule (clean : String) (ni : List Char) (d : District)
    (h1 : ¬(ni ≠ [] ∧ ni = normNameOf d))
    (h2 : ¬(d.acct ≠ "" ∧ lowStripS clean = lowStripS d.acct))
    (h3 : ¬(normAcctOf d ≠ [] ∧ ni ≠ [] ∧ ni = normAcctOf d))
    (h4 : ¬(ni ≠ [] ∧ normNameOf d ≠ [] ∧
        (occursIn ni (normNameOf d) || occursIn (normNameOf d) ni) = true)) :
    entriesFor clean ni d =
      (if mkRat 1 2 ≤ word_overlap_score ni (normNameOf d) then
        [⟨word_overlap_score ni (normNameOf d), d.leaid, d.name, "WORD_OVERLAP"⟩] else []) ++
      (if normAcctOf d ≠ [] ∧ mkRat 1 2 ≤ word_overlap_score ni (normAcctOf d) then
        [⟨word_overlap_score ni (normAcctOf d), d.leaid, d.name, "ACCT_OVERLAP"⟩] else []) ∧
    (entriesFor clean ni d).length ≤ 2 := by
  have he : entriesFor clean ni d =
      (if mkRat 1 2 ≤ word_overlap_score ni (normNameOf d) then
        [⟨word_overlap_score ni (normNameOf d), d.leaid, d.name, "WORD_OVERLAP"⟩] else []) ++
      (if normAcctOf d ≠ [] ∧ mkRat 1 2 ≤ word_overlap_score ni (normAcctOf d) then
        [⟨word_overlap_score ni (normAcctOf d), d.leaid, d.name, "ACCT_OVERLAP"⟩] else []) := by
    unfold entriesFor
    rw [if_neg h1, if_neg h2, if_neg h3, if_neg h4]
  refine ⟨he, ?_⟩
  rw [he]
  split_ifs <;> simp

/-- C7 (witness): the amended overlap rule applied to a candidate with no
account name yields the single WORD_OVERLAP entry. -/
theorem c7_overlap_witness :
    entriesFor "Alpha Beta" (normalize ("Alpha Beta".toList))
        ⟨"8", "Beta Gamma Alpha", "TX", ""⟩ =
      [⟨mkRat 1 1, "8", "Beta Gamma Alpha", "WORD_OVERLAP"⟩] := by
  have h := (c7_overlap_rule "Alpha Beta" (normalize ("Alpha Beta".toList))
    ⟨"8", "Beta Gamma Alpha", "TX", ""⟩
    (by decide) (by decide) (by decide) (by decide)).1
  rw [h]
  decide

/-- C8 (counterexample): the suffix phrase community unit school district is
in the vocabulary, yet an input ending in it keeps the words community unit:
the earlier removal of its sub-phrase school district pre-empted it, so the
vocabulary is not removed longest phrase first. -/
theorem c8_vocab_counterexample :
    ("community unit school district".toList) ∈ suffixWords ∧
    normalize ("anna community unit school district".toList) =
      ("anna community unit".toList) ∧
    ("anna community unit".toList) ≠ ("anna".toList) :=
  ⟨by decide, by decide, by decide⟩

/-- C8 (amended): the vocabulary is removed by sequential replacement in the
fixed source order, whose first phrase is school district; an earlier
sub-phrase removal can therefore pre-empt a longer listed phrase, as on
community unit school district itself. -/
theorem c8_vocab_order :
    suffixWords.head? = some ("school district".toList) ∧
    ("community unit school district".toList) ∈ suffixWords ∧
    replaceAll ("school district".toList) [] ("community unit school district".toList) =
      ("community unit ".toList) ∧
    normalize ("community unit school district".toList) = ("community unit".toList) :=
  ⟨rfl, by decide, by decide, by decide⟩

/-- C9 (counterexample): an input whose normalized name is empty can still
be matched: the EXACT_ACCOUNT rule compares raw account names, so the
resolver returns a chosen entity at confidence HIGH. -/
theorem c9_empty_counterexample :
    normalize ((cleanNameOf "School").toList) = [] ∧
    processRow [⟨"5", "Whatever", "TX", "School"⟩] ⟨"School", "TX", "", ""⟩ =
      some ⟨"School", "TX", "", "", "5", "Whatever", "EXACT_ACCOUNT", "HIGH", [], false, ""⟩ :=
  ⟨by decide, by decide⟩

/-- C9 (amended): with an empty normalized name no normalized rule
(EXACT_NORM, EXACT_NORM_ACCOUNT, SUBSTRING, WORD_OVERLAP, ACCT_OVERLAP) can
fire; only the raw EXACT_ACCOUNT comparison can still produce a result, and
when no candidate's raw account name matches, the whole scored list is
empty. -/
theorem c9_empty_normalized (clean : String) (d : District)
    (h : normalize clean.toList = []) :
    entriesFor clean (normalize clean.toList) d =
      (if d.acct ≠ "" ∧ lowStripS clean = lowStripS d.acct then
        [⟨mkRat 99 100, d.leaid, d.name, "EXACT_ACCOUNT"⟩] else []) ∧
    ∀ (cands : List District),
      (∀ d' ∈ cands, ¬(d'.acct ≠ "" ∧ lowStripS clean = lowStripS d'.acct)) →
      cands.flatMap (entriesFor clean (normalize clean.toList)) = [] := by
  have key : ∀ d' : District, ¬(d'.acct ≠ "" ∧ lowStripS clean = lowStripS d'.acct) →
      entriesFor clean (normalize clean.toList) d' = [] := by
    intro d' hd'
    rw [h]
    unfold entriesFor
    rw [if_neg (by simp), if_neg hd', if_neg (by simp), if_neg (by simp)]
    rw [if_neg (by rw [show word_overlap_score [] (normNameOf d') = 0 from rfl]; decide)]
    rw [if_neg (by
      rintro ⟨_, h2'⟩
      rw [show word_overlap_score [] (normAcctOf d') = 0 from rfl] at h2'
      exact absurd h2' (by decide))]
    rfl
  constructor
  · by_cases hc : d.acct ≠ "" ∧ lowStripS clean = lowStripS d.acct
    · rw [h]
      unfold entriesFor
      rw [if_neg (by simp), if_pos hc, if_pos hc]
    · rw [key d hc, if_neg hc]
  · intro cands
    induction cands with
    | nil =>
      intro _
      rfl
    | cons d' ds ih =>
      intro hc
      rw [List.flatMap_cons, key d' (hc d' (List.mem_cons_self d' ds)), List.nil_append]
      exact ih (fun x hx => hc x (List.mem_cons_of_mem d' hx))

/-- C9 (witness): the amended rule applied at the concrete empty-normalized
input School against a candidate with no account name. -/
theorem c9_empty_witness :
    entriesFor "School" (normalize ("School".toList)) ⟨"6", "Nothing", "TX", ""⟩ = [] := by
  have h := (c9_empty_normalized "School" ⟨"6", "Nothing", "TX", ""⟩ (by decide)).1
  rw [h]
  decide

/-- C10: every normalize output is either empty or consists solely of
lowercase letters and single separating spaces, with no leading or trailing
whitespace and no digits or punctuation. -/
theorem c10_normalize_wellformed (s : List Char) : CleanOut (normalize s) :=
  normalize_wf s

/-- C10 (witness): the invariant evaluated at a concrete noisy input. -/
theorem c10_normalize_witness : CleanOut (normalize ("  Alief Isd (TX) #12 ".toList)) :=
  c10_normalize_wellformed ("  Alief Isd (TX) #12 ".toList)

end TerritoryPlan
